import Mathlib

/-!
Shallow embedding of `parallel-itertools` (src/lib.rs).

The crate provides an iterator adapter `ThreadedMap` that maps items of an
iterator in parallel over a thread pool while conserving their order.  We
embed the adapter state and its operations over finite sources (`List α`),
instrumenting each operation with observation counters for the events the
specification talks about: pulls from the source iterator (`Iterator::next`
calls), task submissions to the pool (`ThreadPool::execute` calls) and
completion-channel creations (`mpsc::channel()` calls).

Concurrency is resolved as follows: workers send `(index, output)` pairs on
the per-batch channel in an arbitrary interleaving; the adapter sorts the
collected pairs by index before using them, so the result is independent of
arrival order.  The deterministic embedding collects the pairs in submission
order; the reorder theorems below are proved for an arbitrary permutation of
the batch, which covers every completion schedule.
-/

/-- Thread pool handle; we only observe its `max_count()` (the worker count W). -/
structure ThreadPool where
  max_count : Nat
deriving Repr, DecidableEq

/-- Modelled from the spec: the Worker Pool is an external collaborator
(the `threadpool` crate); its sources are not part of this repository.
Per §4.1 the pool is constructed with a worker count W ≥ 1, and
`ThreadPool::new(0)` aborts (panics) instead of returning a pool; we model
the abort as `none`. -/
def ThreadPool.new (num_threads : Nat) : Option ThreadPool :=
  if 1 ≤ num_threads then some ⟨num_threads⟩ else none

/-- Modelled from the spec: `Builder::new().build()` sizes the pool with a
platform-default positive worker count; the default is a parameter here. -/
def Builder.build (default_count : Nat) : ThreadPool :=
  ⟨default_count⟩

/-- State of the adapter, mirroring the fields of `ThreadedMap` in
src/lib.rs: the source iterator (a finite list here), the mapped function,
the thread pool and the pending window of already-computed outputs.
`window.pop()` on the Rust `Vec` removes from the end of the list. -/
structure ThreadedMap (α β : Type) where
  iterator : List α
  function : α → β
  thread_pool : ThreadPool
  window : List β

/-- Embeds `ThreadedMap::new` (src/lib.rs lines 51-58):
`num_threads.map_or_else(|| Builder::new().build(), ThreadPool::new)`.
Construction fails (the Rust code panics) exactly when `ThreadPool::new`
aborts. -/
def ThreadedMap.new (iterator : List α) (function : α → β)
    (num_threads : Option Nat) (default_count : Nat) :
    Option (ThreadedMap α β) :=
  (match num_threads with
    | none => some (Builder.build default_count)
    | some n => ThreadPool.new n).map
    fun tp => { iterator := iterator, function := function,
                thread_pool := tp, window := [] }

/-- Embeds `ThreadedIter::parallel_map` (src/lib.rs lines 26-28), which
just delegates to `ThreadedMap::new`. -/
def parallel_map (s : List α) (f : α → β) (num_threads : Option Nat)
    (default_count : Nat) : Option (ThreadedMap α β) :=
  ThreadedMap.new s f num_threads default_count

/-- One `self.iterator.next()` call on the list-modelled source. -/
def iterNext : List α → Option α × List α
  | [] => (none, [])
  | x :: xs => (some x, xs)

/-- Embeds the loop body of `ThreadedMap::window` (src/lib.rs lines 60-70):
`for _ in 0..n { if let Some(item) = self.iterator.next() { items.push(item) } }`.
Returns the collected items, the remaining source, and the number of
`next()` calls issued to the source (one per loop iteration; the loop does
not stop early when the source is exhausted). -/
def windowLoop : List α → Nat → List α × List α × Nat
  | it, 0 => ([], it, 0)
  | it, n + 1 =>
    match iterNext it with
    | (some x, it') =>
      let r := windowLoop it' n
      (x :: r.1, r.2.1, r.2.2 + 1)
    | (none, it') =>
      let r := windowLoop it' n
      (r.1, r.2.1, r.2.2 + 1)

/-- Result of `ThreadedMap::send_items`: the `(index, output)` pairs that
will be read from the completion channel (in submission order in this
deterministic model), the new adapter state, and the observation counters. -/
structure SendResult (α β : Type) where
  received : List (Nat × β)
  state : ThreadedMap α β
  pulls : Nat
  submits : Nat
  channels : Nat

/-- Embeds `ThreadedMap::send_items` (src/lib.rs lines 72-86): create a
channel, pull a window of `thread_pool.max_count()` items, and submit one
task per item; task `index` eventually sends `(index, f item)` on the
channel.  `channels = 1` because `channel()` is called unconditionally at
the top of the function. -/
def ThreadedMap.send_items (s : ThreadedMap α β) : SendResult α β :=
  let r := windowLoop s.iterator s.thread_pool.max_count
  { received := r.1.enum.map fun p => (p.1, s.function p.2),
    state := { s with iterator := r.2.1 },
    pulls := r.2.2,
    submits := r.1.length,
    channels := 1 }

/-- Embeds `window.sort_by(|(lhs, _), (rhs, _)| rhs.cmp(lhs))`
(src/lib.rs line 110): a stable sort placing pairs in descending order of
their first component.  Rust's `sort_by` is a stable sort; all stable sorts
under a fixed total preorder produce the same output, so the structurally
recursive stable insertion sort is an extensionally faithful model. -/
def sortDescFst (l : List (Nat × β)) : List (Nat × β) :=
  l.insertionSort fun lhs rhs => rhs.1 ≤ lhs.1

/-- Result of one `Iterator::next` call on the adapter, with the
observation counters for that call. -/
structure StepResult (α β : Type) where
  out : Option β
  state : ThreadedMap α β
  pulls : Nat
  submits : Nat
  channels : Nat

/-- Embeds `Iterator::next for ThreadedMap` (src/lib.rs lines 98-113):
pop the pending window if possible; otherwise dispatch a batch, drain the
channel, sort the pairs descending by index, store the outputs as the new
window and pop one. -/
def ThreadedMap.next (s : ThreadedMap α β) : StepResult α β :=
  match s.window.getLast? with
  | some item =>
    { out := some item, state := { s with window := s.window.dropLast },
      pulls := 0, submits := 0, channels := 0 }
  | none =>
    let r := s.send_items
    if r.received.isEmpty then
      { out := none, state := r.state,
        pulls := r.pulls, submits := r.submits, channels := r.channels }
    else
      let w := (sortDescFst r.received).map Prod.snd
      { out := w.getLast?, state := { r.state with window := w.dropLast },
        pulls := r.pulls, submits := r.submits, channels := r.channels }

/-- Drives the adapter until it reports end-of-sequence, collecting the
yielded outputs; `fuel` bounds the number of `next` calls. -/
def runFuel : Nat → ThreadedMap α β → List β
  | 0, _ => []
  | fuel + 1, s =>
    let r := s.next
    match r.out with
    | none => []
    | some x => x :: runFuel fuel r.state

/-- Full consumption of the adapter (the fuel suffices: each yielded output
consumes either one window entry or at least one source item). -/
def ThreadedMap.run (s : ThreadedMap α β) : List β :=
  runFuel (s.iterator.length + s.window.length) s

/-- Total number of task submissions to the pool over a full consumption,
including the final refill attempt that reports end-of-sequence. -/
def runSubmitsFuel : Nat → ThreadedMap α β → Nat
  | 0, _ => 0
  | fuel + 1, s =>
    let r := s.next
    match r.out with
    | none => r.submits
    | some _ => r.submits + runSubmitsFuel fuel r.state

/-- Total submissions over the whole run of the adapter. -/
def ThreadedMap.runSubmits (s : ThreadedMap α β) : Nat :=
  runSubmitsFuel (s.iterator.length + s.window.length + 1) s

example :
    (parallel_map [1, 2, 3, 4, 5, 6] (fun i => toString i) (some 3) 0).map
      ThreadedMap.run = some ["1", "2", "3", "4", "5", "6"] := by decide

/-! ### Helper lemmas -/

theorem windowLoop_eq (n : Nat) :
    ∀ it : List α, windowLoop it n = (it.take n, it.drop n, n) := by
  induction n with
  | zero => intro it; simp [windowLoop]
  | succ n ih =>
    intro it
    cases it with
    | nil => simp [windowLoop, iterNext, ih []]
    | cons x xs => simp [windowLoop, iterNext, ih xs]

/-- Strict descending order on the first (position) component. -/
def descFst (a b : Nat × β) : Prop := b.1 < a.1

theorem eq_of_perm_of_descFst {l₁ l₂ : List (Nat × β)} (p : l₁.Perm l₂)
    (h₁ : l₁.Pairwise descFst) (h₂ : l₂.Pairwise descFst) : l₁ = l₂ := by
  haveI : IsAntisymm (Nat × β) descFst :=
    ⟨fun a b hab hba => absurd (Nat.lt_trans hab hba) (Nat.lt_irrefl _)⟩
  exact List.eq_of_perm_of_sorted p h₁ h₂

theorem sortDescFst_perm (l : List (Nat × β)) : (sortDescFst l).Perm l :=
  List.perm_insertionSort _ l

theorem sortDescFst_sorted (l : List (Nat × β)) :
    (sortDescFst l).Pairwise fun a b => b.1 ≤ a.1 := by
  haveI : IsTotal (Nat × β) (fun a b => b.1 ≤ a.1) :=
    ⟨fun a b => Nat.le_total b.1 a.1⟩
  haveI : IsTrans (Nat × β) (fun a b => b.1 ≤ a.1) :=
    ⟨fun _ _ _ h1 h2 => Nat.le_trans h2 h1⟩
  exact List.sorted_insertionSort _ l

theorem pairwise_descFst_of_sorted_nodup {l : List (Nat × β)}
    (hs : l.Pairwise fun a b => b.1 ≤ a.1) (hn : (l.map Prod.fst).Nodup) :
    l.Pairwise descFst := by
  have hne : l.Pairwise fun a b => a.1 ≠ b.1 := List.pairwise_map.mp hn
  exact List.Pairwise.imp₂ (fun a b h1 h2 => Nat.lt_of_le_of_ne h1 (Ne.symm h2))
    hs hne

/-- Uniqueness of the sorted result: any permutation of a strictly
descending list of pairs sorts to that list, whatever the arrival order. -/
theorem sortDescFst_eq_of_perm {pairs target : List (Nat × β)}
    (hp : pairs.Perm target) (ht : target.Pairwise descFst) :
    sortDescFst pairs = target := by
  have hperm : (sortDescFst pairs).Perm target := (sortDescFst_perm pairs).trans hp
  have htn : (target.map Prod.fst).Nodup :=
    List.pairwise_map.mpr (ht.imp fun h => Nat.ne_of_gt h)
  have hnodup : ((sortDescFst pairs).map Prod.fst).Nodup :=
    ((hperm.map Prod.fst).nodup_iff).mpr htn
  exact eq_of_perm_of_descFst hperm
    (pairwise_descFst_of_sorted_nodup (sortDescFst_sorted pairs) hnodup) ht

theorem enum_pairwise_ltFst (outs : List β) :
    outs.enum.Pairwise fun a b => a.1 < b.1 := by
  have h := List.pairwise_lt_range outs.length
  rw [← List.enum_map_fst outs] at h
  exact List.pairwise_map.mp h

/-- Sorting any arrival-order permutation of an enumerated batch yields the
reversed enumeration. -/
theorem sortDescFst_of_perm_enum {outs : List β} {pairs : List (Nat × β)}
    (h : pairs.Perm outs.enum) : sortDescFst pairs = outs.enum.reverse := by
  refine sortDescFst_eq_of_perm (h.trans (outs.enum.reverse_perm).symm) ?_
  exact List.pairwise_reverse.mpr (enum_pairwise_ltFst outs)

theorem enum_map_pair (f : α → β) (l : List α) :
    l.enum.map (fun p => (p.1, f p.2)) = (l.map f).enum := by
  rw [List.enum_map]
  exact List.map_congr_left fun p _ => by cases p; rfl

theorem send_items_eq (s : ThreadedMap α β) :
    s.send_items =
      ⟨((s.iterator.take s.thread_pool.max_count).map s.function).enum,
        { s with iterator := s.iterator.drop s.thread_pool.max_count },
        s.thread_pool.max_count,
        (s.iterator.take s.thread_pool.max_count).length, 1⟩ := by
  simp [ThreadedMap.send_items, windowLoop_eq, enum_map_pair]

theorem next_pop {s : ThreadedMap α β} {x : β} (h : s.window.getLast? = some x) :
    s.next = ⟨some x, { s with window := s.window.dropLast }, 0, 0, 0⟩ := by
  simp [ThreadedMap.next, h]

theorem next_refill_empty {s : ThreadedMap α β} (hw : s.window = [])
    (hnil : s.iterator.take s.thread_pool.max_count = []) :
    s.next = ⟨none, s, s.thread_pool.max_count, 0, 1⟩ := by
  have hdrop : s.iterator.drop s.thread_pool.max_count = s.iterator := by
    rcases List.take_eq_nil_iff.mp hnil with h | h
    · rw [h, List.drop_zero]
    · rw [h, List.drop_nil]
  have h := send_items_eq s
  rw [hnil] at h
  simp only [List.map_nil] at h
  simp [ThreadedMap.next, hw, h, hdrop]
  cases s
  simp_all

theorem next_refill {s : ThreadedMap α β} {a : α} {t : List α} {m : Nat}
    (hw : s.window = []) (hit : s.iterator = a :: t)
    (hW : s.thread_pool.max_count = m + 1) :
    s.next =
      ⟨some (s.function a),
        { s with iterator := s.iterator.drop (m + 1),
                 window := ((s.iterator.take (m + 1)).map s.function).tail.reverse },
        m + 1, (s.iterator.take (m + 1)).length, 1⟩ := by
  have h := send_items_eq s
  rw [hW] at h
  have hsort :
      sortDescFst ((s.iterator.take (m + 1)).map s.function).enum =
        ((s.iterator.take (m + 1)).map s.function).enum.reverse :=
    sortDescFst_of_perm_enum (List.Perm.refl _)
  have hout :
      (sortDescFst ((s.iterator.take (m + 1)).map s.function).enum).map Prod.snd =
        ((s.iterator.take (m + 1)).map s.function).reverse := by
    rw [hsort, List.map_reverse, List.enum_map_snd]
  have hnonempty :
      ((s.iterator.take (m + 1)).map s.function).enum.isEmpty = false := by
    simp [hit]
  simp only [ThreadedMap.next, hw, List.getLast?_nil, h, hnonempty, Bool.false_eq_true,
    if_false, hout]
  rw [List.getLast?_reverse, List.dropLast_reverse]
  simp [hit]

/-- Core run lemma: from any state, a full consumption yields the reversed
pending window followed by the mapped remainder of the source. -/
theorem runFuel_eq :
    ∀ (fuel : Nat) (s : ThreadedMap α β),
      1 ≤ s.thread_pool.max_count →
      s.iterator.length + s.window.length ≤ fuel →
      runFuel fuel s = s.window.reverse ++ s.iterator.map s.function := by
  intro fuel
  induction fuel with
  | zero =>
    intro s _ hlen
    have h1 : s.iterator = [] := List.length_eq_zero.mp (by omega)
    have h2 : s.window = [] := List.length_eq_zero.mp (by omega)
    simp [runFuel, h1, h2]
  | succ fuel ih =>
    intro s hW hlen
    cases hwl : s.window.getLast? with
    | some x =>
      obtain ⟨w', hw'⟩ := List.getLast?_eq_some_iff.mp hwl
      simp only [runFuel, next_pop hwl]
      rw [ih { s with window := s.window.dropLast } (by simpa using hW)
        (by simp [hw'] at hlen ⊢; omega)]
      simp [hw']
    | none =>
      have hw : s.window = [] := List.getLast?_eq_none_iff.mp hwl
      cases hit : s.iterator with
      | nil => simp [runFuel, next_refill_empty hw (by simp [hit]), hw, hit]
      | cons a t =>
        obtain ⟨m, hm⟩ : ∃ m, s.thread_pool.max_count = m + 1 :=
          ⟨s.thread_pool.max_count - 1, by omega⟩
        simp only [runFuel, next_refill hw hit hm]
        rw [ih _ (by simpa using hW) (by simp [hit, hw] at hlen ⊢; omega)]
        simp only [hw, hit, List.take_succ_cons, List.drop_succ_cons,
          List.map_cons, List.tail_cons, List.reverse_reverse,
          List.reverse_nil, List.nil_append]
        rw [← List.map_append, List.take_append_drop]

theorem ThreadedMap.run_eq (s : ThreadedMap α β)
    (hW : 1 ≤ s.thread_pool.max_count) :
    s.run = s.window.reverse ++ s.iterator.map s.function :=
  runFuel_eq _ s hW (Nat.le_refl _)

/-! ### Claim theorems -/

/-- C1: for every finite input sequence S, every worker count W ≥ 1, and
every (deterministic) function f, the sequence yielded by
`parallel_map(S, f, W)` equals, element for element and in order, the plain
sequential map of f over S; in particular W = 1 yields output identical to
a fully sequential map. -/
theorem parallel_map_eq_sequential_map (S : List α) (f : α → β) (W d : Nat)
    (hW : 1 ≤ W) :
    (parallel_map S f (some W) d).map ThreadedMap.run = some (S.map f) := by
  simp only [parallel_map, ThreadedMap.new, ThreadPool.new, if_pos hW,
    Option.map_some']
  rw [ThreadedMap.run_eq _ hW]
  simp

/-- Witness for C1: six items, two workers, squaring. -/
theorem parallel_map_eq_sequential_map_witness :
    1 ≤ 2 ∧ (parallel_map [1, 2, 3, 4, 5, 6] (fun i => i * i) (some 2) 0).map
      ThreadedMap.run = some [1, 4, 9, 16, 25, 36] :=
  ⟨by decide, by
    simpa using
      parallel_map_eq_sequential_map [1, 2, 3, 4, 5, 6] (fun i => i * i) 2 0
        (by decide)⟩

/-- C2: a new batch is dispatched only when the pending window is empty
(a call that pops the window submits no task and creates no channel), and a
dispatch submits at most `max_count` (= W) tasks; the batch is drained
within the same `next` call by construction, so at most one batch — at most
W tasks — is in flight at any point in any sequence of `next()` calls. -/
theorem at_most_one_batch_in_flight (s : ThreadedMap α β) :
    s.next.submits ≤ (if s.window.isEmpty then s.thread_pool.max_count else 0) ∧
    s.next.channels ≤ (if s.window.isEmpty then 1 else 0) := by
  cases hwl : s.window.getLast? with
  | some x => simp [next_pop hwl]
  | none =>
    have hw : s.window = [] := List.getLast?_eq_none_iff.mp hwl
    cases hit : s.iterator with
    | nil => simp [next_refill_empty hw (by simp [hit]), hw]
    | cons a t =>
      cases hm : s.thread_pool.max_count with
      | zero => simp [next_refill_empty hw (by simp [hm]), hw, hm]
      | succ m =>
        simp [next_refill hw hit hm, hw, hm, List.length_take]

/-- C3: for every batch of B (position, output) pairs holding the positions
0..B-1 exactly once, received in arbitrary order, sorting descending by
position and then repeatedly removing from the tail of the stored window
yields the outputs in ascending position order (position 0 first, then 1,
and so on). -/
theorem reorder_buffer_yields_ascending (outs : List β)
    (pairs : List (Nat × β)) (h : pairs.Perm outs.enum) :
    ((sortDescFst pairs).map Prod.snd).reverse = outs := by
  rw [sortDescFst_of_perm_enum h, List.map_reverse, List.enum_map_snd,
    List.reverse_reverse]

/-- Witness for C3: a three-element batch arriving out of order. -/
theorem reorder_buffer_yields_ascending_witness :
    [(2, 30), (0, 10), (1, 20)].Perm ([10, 20, 30] : List Nat).enum ∧
    ((sortDescFst [(2, 30), (0, 10), (1, 20)]).map Prod.snd).reverse =
      [10, 20, 30] :=
  ⟨by decide, reorder_buffer_yields_ascending [10, 20, 30]
    [(2, 30), (0, 10), (1, 20)] (by decide)⟩

/-- Adapter state that has just reported end-of-sequence: empty source,
empty window, two workers. -/
def exhaustedState : ThreadedMap Nat Nat :=
  { iterator := [], function := fun x => x + 1, thread_pool := ⟨2⟩,
    window := [] }

/-- C4 counterexample: `exhaustedState.next` reports end-of-sequence and
leaves the state unchanged, so every further `next()` call runs on
`exhaustedState` itself — and such a call issues 2 pulls (calls to the
source's `next()`), contradicting "no further pulls from the Source
Sequence occur on those calls". -/
theorem exhausted_still_pulls :
    exhaustedState.next.out = none ∧
    exhaustedState.next.state = exhaustedState ∧
    exhaustedState.next.pulls = 2 :=
  ⟨rfl, rfl, rfl⟩

/-- C4 amended: once the adapter reports end-of-sequence (with W ≥ 1 as the
pool guarantees), the source and window are empty and the state is
unchanged, so the state is terminal and every further call again reports
end-of-sequence; however each such call still issues W pulls to the
(exhausted) source instead of none. -/
theorem exhausted_terminal (s : ThreadedMap α β)
    (hW : 1 ≤ s.thread_pool.max_count) (h : s.next.out = none) :
    s.iterator = [] ∧ s.window = [] ∧ s.next.state = s ∧
    s.next.pulls = s.thread_pool.max_count ∧ s.next.submits = 0 ∧
    ∀ k, ((fun t : ThreadedMap α β => t.next.state)^[k] s).next.out = none ∧
      ((fun t : ThreadedMap α β => t.next.state)^[k] s).next.pulls =
        s.thread_pool.max_count := by
  have hw : s.window = [] := by
    cases hwl : s.window.getLast? with
    | some x => rw [next_pop hwl] at h; simp at h
    | none => exact List.getLast?_eq_none_iff.mp hwl
  have hit : s.iterator = [] := by
    cases hit : s.iterator with
    | nil => rfl
    | cons a t =>
      obtain ⟨m, hm⟩ : ∃ m, s.thread_pool.max_count = m + 1 :=
        ⟨s.thread_pool.max_count - 1, by omega⟩
      rw [next_refill hw hit hm] at h
      simp at h
  have hnext := next_refill_empty hw (by simp [hit])
  have hfix : ∀ k, (fun t : ThreadedMap α β => t.next.state)^[k] s = s := by
    intro k
    induction k with
    | zero => rfl
    | succ k ihk =>
      rw [Function.iterate_succ_apply', ihk]
      show s.next.state = s
      rw [hnext]
  refine ⟨hit, hw, by rw [hnext], by rw [hnext], by rw [hnext], fun k => ?_⟩
  rw [hfix k, hnext]
  exact ⟨rfl, rfl⟩

/-- Witness for C4's amended statement at `exhaustedState`. -/
theorem exhausted_terminal_witness :
    1 ≤ exhaustedState.thread_pool.max_count ∧
    exhaustedState.next.out = none ∧
    exhaustedState.iterator = [] ∧ exhaustedState.window = [] ∧
    exhaustedState.next.state = exhaustedState ∧
    exhaustedState.next.pulls = exhaustedState.thread_pool.max_count ∧
    exhaustedState.next.submits = 0 ∧
    ∀ k, ((fun t : ThreadedMap Nat Nat =>
        t.next.state)^[k] exhaustedState).next.out = none ∧
      ((fun t : ThreadedMap Nat Nat =>
        t.next.state)^[k] exhaustedState).next.pulls =
        exhaustedState.thread_pool.max_count :=
  ⟨by decide, rfl, exhausted_terminal exhaustedState (by decide) rfl⟩

/-- Refill state with an empty source and two workers. -/
def emptySourceState : ThreadedMap Nat Nat :=
  { iterator := [], function := fun x => x, thread_pool := ⟨2⟩, window := [] }

/-- C5 counterexample: with an empty source and W = 2, the source reports
exhaustion on the very first pull of the refill cycle, yet the dispatcher
issues a second pull: the cycle performs 2 pulls while obtaining B = 0
items, contradicting "it does not pull from the source again after the
source has reported exhaustion within that cycle". -/
theorem dispatcher_pulls_past_exhaustion :
    emptySourceState.iterator = [] ∧
    emptySourceState.send_items.received.length = 0 ∧
    emptySourceState.send_items.pulls = 2 :=
  ⟨rfl, rfl, rfl⟩

/-- C5 amended: in each refill cycle the dispatcher issues exactly W pulls
to the source (continuing to poll it even after it reports exhaustion), and
the number B of items obtained equals min(W, remaining), so 0 ≤ B ≤ W. -/
theorem dispatcher_refill_bounds (s : ThreadedMap α β) :
    s.send_items.pulls = s.thread_pool.max_count ∧
    s.send_items.received.length =
      min s.thread_pool.max_count s.iterator.length ∧
    s.send_items.received.length ≤ s.thread_pool.max_count := by
  rw [send_items_eq]
  refine ⟨rfl, ?_, ?_⟩
  · simp [List.enum_length, List.length_take]
  · simp [List.enum_length, List.length_take]

/-- State whose window is drained and whose source is exhausted, one worker. -/
def drainedState : ThreadedMap Nat Nat :=
  { iterator := [], function := fun x => x, thread_pool := ⟨1⟩, window := [] }

/-- C6 counterexample: a refill cycle that obtains B = 0 items signals
end-of-sequence, but a completion channel is still created for that cycle
(`channel()` is called unconditionally at the top of `send_items` before
any item is pulled): `channels = 1`, not 0. -/
theorem empty_refill_creates_channel :
    drainedState.next.out = none ∧ drainedState.next.submits = 0 ∧
    drainedState.next.channels = 1 :=
  ⟨rfl, rfl, rfl⟩

/-- C6 amended: when a refill cycle obtains B = 0 items the adapter signals
end-of-sequence and submits no task, but one completion channel is still
created for the cycle (and discarded unused). -/
theorem empty_refill_signals_end (s : ThreadedMap α β) (hw : s.window = [])
    (hB : s.send_items.received.length = 0) :
    s.next.out = none ∧ s.next.channels = 1 ∧ s.next.submits = 0 := by
  have htake : s.iterator.take s.thread_pool.max_count = [] := by
    rw [send_items_eq] at hB
    simpa using hB
  rw [next_refill_empty hw htake]
  exact ⟨rfl, rfl, rfl⟩

/-- Witness for C6's amended statement at `drainedState`. -/
theorem empty_refill_signals_end_witness :
    drainedState.window = [] ∧
    drainedState.send_items.received.length = 0 ∧
    drainedState.next.out = none ∧ drainedState.next.channels = 1 ∧
    drainedState.next.submits = 0 :=
  ⟨rfl, rfl, empty_refill_signals_end drainedState rfl rfl⟩

/-- C7: for the empty input sequence, any worker count W ≥ 1 and any f,
`parallel_map` yields the empty output sequence and performs zero task
submissions to the worker pool over the whole run. -/
theorem parallel_map_empty_input (f : α → β) (W d : Nat) (hW : 1 ≤ W) :
    (parallel_map ([] : List α) f (some W) d).map
      (fun m => (m.run, m.runSubmits)) = some ([], 0) := by
  simp only [parallel_map, ThreadedMap.new, ThreadPool.new, if_pos hW,
    Option.map_some']
  have h : (⟨[], f, ⟨W⟩, []⟩ : ThreadedMap α β).next =
      ⟨none, ⟨[], f, ⟨W⟩, []⟩, W, 0, 1⟩ :=
    next_refill_empty rfl (by simp)
  simp [ThreadedMap.run, ThreadedMap.runSubmits, runFuel, runSubmitsFuel, h]

/-- Witness for C7 with one worker. -/
theorem parallel_map_empty_input_witness :
    1 ≤ 1 ∧ (parallel_map ([] : List Nat) (fun n => n + 1) (some 1) 0).map
      (fun m => (m.run, m.runSubmits)) = some ([], 0) :=
  ⟨by decide, parallel_map_empty_input (fun n => n + 1) 1 0 (by decide)⟩

/-- The batch suffix still pending after one `next` call: the tail of the
current pending suffix or, when the window was empty, everything after the
first element of the freshly dispatched batch. -/
def nextPending (s : ThreadedMap α β) (pending : List α) : List α :=
  match pending with
  | _ :: ps => ps
  | [] => (s.iterator.take s.thread_pool.max_count).tail

/-- C9: if the window holds exactly the outputs of the not-yet-yielded
items `pending` of the current batch, ordered by strictly descending
original position (i.e. it is the reverse of `pending.map f`), then
`next()` pops the output of the smallest pending position, and the window
again holds the outputs of the remaining not-yet-yielded items in strictly
descending position order — the invariant is preserved by every call. -/
theorem window_invariant (s : ThreadedMap α β) (pending : List α)
    (h : s.window = (pending.map s.function).reverse) :
    s.next.state.function = s.function ∧
    s.next.state.window = ((nextPending s pending).map s.function).reverse ∧
    ∀ p ps, pending = p :: ps → s.next.out = some (s.function p) := by
  cases pending with
  | cons p ps =>
    have hwl : s.window.getLast? = some (s.function p) := by
      rw [h, List.getLast?_reverse]
      rfl
    rw [next_pop hwl]
    refine ⟨rfl, ?_, fun q qs hq => ?_⟩
    · rw [h, List.dropLast_reverse]
      simp [nextPending]
    · cases hq
      rfl
  | nil =>
    have hw : s.window = [] := by simpa using h
    cases hit : s.iterator with
    | nil =>
      rw [next_refill_empty hw (by simp [hit])]
      refine ⟨rfl, ?_, fun q qs hq => by cases hq⟩
      simp [nextPending, hw, hit]
    | cons a t =>
      cases hm : s.thread_pool.max_count with
      | zero =>
        rw [next_refill_empty hw (by simp [hm])]
        refine ⟨rfl, ?_, fun q qs hq => by cases hq⟩
        simp [nextPending, hw, hm]
      | succ m =>
        rw [next_refill hw hit hm]
        refine ⟨rfl, ?_, fun q qs hq => by cases hq⟩
        simp only [nextPending, hm, List.map_tail]

/-- Witness for C9: a window holding the outputs of pending items [2, 3]
for the function (· * 10) — the window is [30, 20], descending positions. -/
theorem window_invariant_witness :
    (⟨[5, 6], fun x => x * 10, ⟨2⟩, [30, 20]⟩ : ThreadedMap Nat Nat).window =
      (([2, 3].map fun x => x * 10)).reverse ∧
    ((⟨[5, 6], fun x => x * 10, ⟨2⟩, [30, 20]⟩ :
        ThreadedMap Nat Nat).next.state.function = fun x => x * 10) ∧
    (⟨[5, 6], fun x => x * 10, ⟨2⟩, [30, 20]⟩ :
        ThreadedMap Nat Nat).next.state.window =
      ((nextPending (⟨[5, 6], fun x => x * 10, ⟨2⟩, [30, 20]⟩ :
        ThreadedMap Nat Nat) [2, 3]).map fun x => x * 10).reverse ∧
    ∀ p ps, ([2, 3] : List Nat) = p :: ps →
      (⟨[5, 6], fun x => x * 10, ⟨2⟩, [30, 20]⟩ :
        ThreadedMap Nat Nat).next.out = some (p * 10) :=
  ⟨rfl, window_invariant ⟨[5, 6], fun x => x * 10, ⟨2⟩, [30, 20]⟩ [2, 3] rfl⟩

/-- C10: requesting an explicit worker count of zero does not yield a
working adapter: the (spec-modelled) pool constructor aborts on zero
threads, so `parallel_map(S, f, Some(0))` never returns an adapter. -/
theorem parallel_map_zero_workers_aborts (S : List α) (f : α → β) (d : Nat) :
    ThreadPool.new 0 = none ∧ parallel_map S f (some 0) d = none :=
  ⟨rfl, rfl⟩
